import Mathlib

/-!
Verification of the file-backed message store (`store/file/file_store.go`).

The store is modelled shallowly: file contents are `List Char` (text files)
or `List Nat` (the raw body file), the five per-session files live in an
`FS` record whose fields are `Option`-valued (`none` = the file does not
exist on disk), and each store operation is a pure function from the store
state to a result together with the post state.  Machine integers are
modelled as unbounded `Int` (no claim exercises 64-bit overflow).
-/

namespace FileStoreModel

/-- Raw bytes of the body file (Go `[]byte`). -/
abbrev Bytes := List Nat

/-! ### Decimal formatting, mirroring Go `fmt` verbs -/

/-- Digit characters of `n` in base 10, most significant first, via repeated
division as Go's integer formatter does.  The first argument is fuel; `n + 1`
is always enough since the digit count of `n` is at most `n`. -/
def natToCharsAux : Nat → Nat → List Char
  | 0, _ => []
  | fuel + 1, n =>
    if n = 0 then [] else natToCharsAux fuel (n / 10) ++ [Nat.digitChar (n % 10)]

/-- Decimal representation of a natural number, as Go's `%d` prints it. -/
def natToChars (n : Nat) : List Char :=
  if n = 0 then ['0'] else natToCharsAux (n + 1) n

/-- Decimal representation of an integer, as Go's `%d` prints it. -/
def intToChars (n : Int) : List Char :=
  if n < 0 then '-' :: natToChars n.natAbs else natToChars n.natAbs

/-- The 19-character zero-padded decimal representation written by
`setSeqNum` via `fmt.Fprintf(f, "%019d", seqNum)`. -/
def format019 (n : Int) : List Char :=
  if n < 0 then
    '-' :: (List.replicate (18 - (natToChars n.natAbs).length) '0' ++ natToChars n.natAbs)
  else
    List.replicate (19 - (natToChars n.natAbs).length) '0' ++ natToChars n.natAbs

/-! ### Decimal parsing, mirroring `strconv.Atoi` and `fmt.Fscanf` -/

/-- Numeric value of a run of decimal digit characters. -/
def digitsVal (l : List Char) : Nat :=
  l.foldl (fun a c => 10 * a + (c.toNat - 48)) 0

/-- Characters trimmed from both ends by `strings.Trim(s, "\r\n")`. -/
def isCRLF (c : Char) : Bool := c = '\r' || c = '\n'

/-- Model of `strings.Trim(s, "\r\n")`. -/
def trimCRLF (l : List Char) : List Char :=
  ((l.dropWhile isCRLF).reverse.dropWhile isCRLF).reverse

/-- Model of `strconv.Atoi`: an optional sign followed by one or more
digits, consuming the whole input. -/
def goAtoi (l : List Char) : Option Int :=
  if l.isEmpty then none
  else if l.head? = some '-' then
    if !l.tail.isEmpty && l.tail.all Char.isDigit then
      some (-(digitsVal l.tail : Int))
    else none
  else if l.head? = some '+' then
    if !l.tail.isEmpty && l.tail.all Char.isDigit then
      some ((digitsVal l.tail : Int))
    else none
  else if l.all Char.isDigit then some ((digitsVal l : Int)) else none

/-- Characters fmt's scanner skips as space in `Fscanf` mode; a newline is
not among them (`SkipSpace` raises "unexpected newline" on one, and the
format's own `\n` handles them in `advance`). -/
def isFmtSpace (c : Char) : Bool :=
  c = ' ' || c = '\t' || c = '\x0b' || c = '\x0c' || c = '\r'

/-- The space-skipping done at the start of a `%d` conversion. -/
def skipSpaces (l : List Char) : List Char :=
  l.dropWhile isFmtSpace

/-- Outcome of one `%d` conversion of `fmt.Fscanf`: `io.EOF` (input
exhausted where `scanInt`/`scanNumber` call `notEOF`), a non-EOF scan
error, or the parsed value with the unconsumed rest. -/
inductive IntScan where
  | eofAtStart : IntScan
  | scanErr : IntScan
  | value : Int → List Char → IntScan
deriving DecidableEq

/-- The digits part of `%d` after the optional sign (`scanNumber`): input
exhausted here is `io.EOF`; no digit is the non-EOF "expected integer"
error; otherwise the digit run is consumed. -/
def scanIntDigits (neg : Bool) (l : List Char) : IntScan :=
  if l.isEmpty then .eofAtStart
  else if (l.takeWhile Char.isDigit).isEmpty then .scanErr
  else
    .value
      (if neg then -(digitsVal (l.takeWhile Char.isDigit) : Int)
       else (digitsVal (l.takeWhile Char.isDigit) : Int))
      (l.dropWhile Char.isDigit)

/-- Model of one `%d` conversion of `fmt.Fscanf` (`scanInt`): skip spaces
(a newline here is the non-EOF "unexpected newline" error), `io.EOF` when
the input is exhausted, then an optional `+` or `-` sign followed by
digits. -/
def scanIntGo (l : List Char) : IntScan :=
  if (skipSpaces l).isEmpty then .eofAtStart
  else if (skipSpaces l).head? = some '\n' then .scanErr
  else if (skipSpaces l).head? = some '-' then scanIntDigits true (skipSpaces l).tail
  else if (skipSpaces l).head? = some '+' then scanIntDigits false (skipSpaces l).tail
  else scanIntDigits false (skipSpaces l)

/-- Expect a literal format character at the head of the input
(`mustReadRune` plus the match in `advance`): both end of input
(`io.ErrUnexpectedEOF`) and a mismatch are non-EOF errors. -/
def expectChar (c : Char) : List Char → Option (List Char)
  | [] => none
  | c' :: rest => if c' = c then some rest else none

/-- Model of matching the format's trailing `\n` (fmt's `advance`): end of
input matches silently; spaces may precede the newline and are consumed
with it; anything else is a non-EOF error. -/
def matchNL : List Char → Option (List Char)
  | [] => some []
  | c :: rest =>
    if c = '\n' then some rest
    else if isFmtSpace c then
      match rest.dropWhile isFmtSpace with
      | '\n' :: rest2 => some rest2
      | _ => none
    else none

/-- Outcome of one `fmt.Fscanf(headerFile, "%d,%d,%d\n", ...)` call as the
replay loop observes it: an error satisfying `errors.Is(err, io.EOF)`
(genuine end of file, or input exhausted at the start of a number
conversion — a torn trailing write), a scan failure that is not `io.EOF`,
or a parsed line together with the unconsumed remainder. -/
inductive ScanResult where
  | eof : ScanResult
  | parseError : ScanResult
  | line : Int → Int → Int → List Char → ScanResult
deriving DecidableEq

/-- Model of `fmt.Fscanf(headerFile, "%d,%d,%d\n", &seqNum, &offset, &size)`:
three `%d` conversions separated by literal commas, ended by the format's
newline.  `io.EOF` from any conversion is the silent-break family; errors
at the literal separators (including `io.ErrUnexpectedEOF`) are not. -/
def scanHeaderLine (l : List Char) : ScanResult :=
  match scanIntGo l with
  | .eofAtStart => .eof
  | .scanErr => .parseError
  | .value seqNum r1 =>
    match expectChar ',' r1 with
    | none => .parseError
    | some r2 =>
      match scanIntGo r2 with
      | .eofAtStart => .eof
      | .scanErr => .parseError
      | .value offset r3 =>
        match expectChar ',' r3 with
        | none => .parseError
        | some r4 =>
          match scanIntGo r4 with
          | .eofAtStart => .eof
          | .scanErr => .parseError
          | .value size r5 =>
            match matchNL r5 with
            | none => .parseError
            | some r6 => .line seqNum offset size r6

/-- The header line appended by `SaveMessage` via
`fmt.Fprintf(headerFile, "%d,%d,%d\n", seqNum, offset, len(msg))`. -/
def headerLine (seqNum offset size : Int) : List Char :=
  intToChars seqNum ++ [','] ++ intToChars offset ++ [','] ++ intToChars size ++ ['\n']

/-- Model of `os.File.ReadAt` into a buffer of length `size`: succeeds only
when the requested range lies inside the file (a short read reports an
error); a zero-length read always succeeds. -/
def readAt (body : Bytes) (offset size : Int) : Option Bytes :=
  if size = 0 then some []
  else if 0 ≤ offset ∧ 0 < size ∧ offset.toNat + size.toNat ≤ body.length then
    some ((body.drop offset.toNat).take size.toNat)
  else none

/-! ### The in-memory cache collaborator -/

/-- Modelled from the spec: the in-memory fast-path cache (the memory
message store used as `store.cache`, outside this source file).  It mirrors
the creation time and both next sequence numbers; its `Reset` returns both
counters to 1 and establishes a brand-new creation time (the current clock
reading, passed in as `now`).  Timestamps are abstracted to `Int`. -/
structure Cache where
  nextSenderMsgSeqNum : Int
  nextTargetMsgSeqNum : Int
  creationTime : Int
deriving DecidableEq

/-- Modelled from the spec: cache `Reset` — counters back to 1, creation
time set to the current instant. -/
def Cache.reset (now : Int) : Cache :=
  { nextSenderMsgSeqNum := 1, nextTargetMsgSeqNum := 1, creationTime := now }

/-! ### The five per-session files -/

/-- Contents of the five per-session files; `none` means the file does not
exist on disk. -/
structure FS where
  body : Option Bytes
  header : Option (List Char)
  session : Option (List Char)
  senderSeqNums : Option (List Char)
  targetSeqNums : Option (List Char)
deriving DecidableEq

/-- Contents of a directory with none of the five files present. -/
def FS.empty : FS := ⟨none, none, none, none, none⟩

/-- Effect of `openOrCreateFile` on all five files during `Refresh`:
missing files are created empty, existing contents are kept. -/
def FS.openAll (fs : FS) : FS :=
  { body := some (fs.body.getD [])
    header := some (fs.header.getD [])
    session := some (fs.session.getD [])
    senderSeqNums := some (fs.senderSeqNums.getD [])
    targetSeqNums := some (fs.targetSeqNums.getD []) }

/-- Overwrite-in-place at byte offset 0 without truncation: the semantics
of seeking to the start of a file and writing `new` over `old`. -/
def writeAt0 (old new : List Char) : List Char :=
  new ++ old.drop new.length

/-- The file store: the cache plus the five file contents plus the
configured fsync flag. -/
structure FileStore where
  cache : Cache
  fs : FS
  fileSync : Bool
deriving DecidableEq

/-- Result of a mutating store call: the returned error (if any) and the
post state of the store. -/
abbrev OpResult := Except String Unit × FileStore

/-! ### Store operations -/

/-- Model of `fileStore.NextSenderMsgSeqNum`: a pure cache read. -/
def FileStore.NextSenderMsgSeqNum (s : FileStore) : Int :=
  s.cache.nextSenderMsgSeqNum

/-- Model of `fileStore.NextTargetMsgSeqNum`: a pure cache read. -/
def FileStore.NextTargetMsgSeqNum (s : FileStore) : Int :=
  s.cache.nextTargetMsgSeqNum

/-- Model of `fileStore.CreationTime`: a pure cache read. -/
def FileStore.CreationTime (s : FileStore) : Int :=
  s.cache.creationTime

/-- Model of `fileStore.SetCreationTime`: the body of the Go method is
empty. -/
def FileStore.SetCreationTime (s : FileStore) (_t : Int) : FileStore := s

/-- Model of `fileStore.setSeqNum` acting on one counter file's contents:
seek to the start and overwrite with `%019d` of the value.  `fault = true`
injects the I/O failure path (failed seek/write/sync), in which case the
file is returned unchanged together with the wrapped error. -/
def setSeqNumF (content : List Char) (seqNum : Int) (fault : Bool) :
    Except String (List Char) :=
  if fault then .error "unable to write to file"
  else .ok (writeAt0 content (format019 seqNum))

/-- Model of `fileStore.SetNextSenderMsgSeqNum`: write the counter file
first; only on success update the cache. -/
def FileStore.SetNextSenderMsgSeqNum (s : FileStore) (next : Int) (fault : Bool) : OpResult :=
  match setSeqNumF (s.fs.senderSeqNums.getD []) next fault with
  | .error e => (.error e, s)
  | .ok c =>
    (.ok (), { s with cache := { s.cache with nextSenderMsgSeqNum := next }
                      fs := { s.fs with senderSeqNums := some c } })

/-- Model of `fileStore.SetNextTargetMsgSeqNum`: write the counter file
first; only on success update the cache. -/
def FileStore.SetNextTargetMsgSeqNum (s : FileStore) (next : Int) (fault : Bool) : OpResult :=
  match setSeqNumF (s.fs.targetSeqNums.getD []) next fault with
  | .error e => (.error e, s)
  | .ok c =>
    (.ok (), { s with cache := { s.cache with nextTargetMsgSeqNum := next }
                      fs := { s.fs with targetSeqNums := some c } })

/-- Model of `fileStore.IncrNextSenderMsgSeqNum`: set to the cached value
plus one. -/
def FileStore.IncrNextSenderMsgSeqNum (s : FileStore) (fault : Bool) : OpResult :=
  s.SetNextSenderMsgSeqNum (s.cache.nextSenderMsgSeqNum + 1) fault

/-- Model of `fileStore.IncrNextTargetMsgSeqNum`: set to the cached value
plus one. -/
def FileStore.IncrNextTargetMsgSeqNum (s : FileStore) (fault : Bool) : OpResult :=
  s.SetNextTargetMsgSeqNum (s.cache.nextTargetMsgSeqNum + 1) fault

/-- Injectable failure points of `SaveMessage`, in source order: the two
seeks, the header append, the body append, and the final fsync pair. -/
inductive SaveFault where
  | seekBody | seekHeader | writeHeader | writeBody | syncFiles
deriving DecidableEq

/-- Model of `fileStore.SaveMessage`: capture the body length as the
offset, append the header line, then append the payload to the body file;
earlier completed writes are not rolled back when a later step fails. -/
def FileStore.SaveMessage (s : FileStore) (seqNum : Int) (msg : Bytes)
    (fault : Option SaveFault) : OpResult :=
  if fault = some .seekBody then (.error "unable to seek to end of file", s)
  else if fault = some .seekHeader then (.error "unable to seek to end of file", s)
  else if fault = some .writeHeader then (.error "unable to write to file", s)
  else
    let offset : Int := ((s.fs.body.getD []).length : Int)
    let s1 : FileStore :=
      { s with fs := { s.fs with
          header := some ((s.fs.header.getD []) ++ headerLine seqNum offset (msg.length : Int)) } }
    if fault = some .writeBody then (.error "unable to write to file", s1)
    else
      let s2 : FileStore :=
        { s1 with fs := { s1.fs with body := some ((s.fs.body.getD []) ++ msg) } }
      if s.fileSync && fault = some .syncFiles then (.error "unable to flush file", s2)
      else (.ok (), s2)

/-- Model of `fileStore.SaveMessageAndIncrNextSenderMsgSeqNum`: save, and
only on success increment the sender counter. -/
def FileStore.SaveMessageAndIncrNextSenderMsgSeqNum (s : FileStore) (seqNum : Int)
    (msg : Bytes) (fault : Option SaveFault) (incrFault : Bool) : OpResult :=
  match s.SaveMessage seqNum msg fault with
  | (.error e, s1) => (.error e, s1)
  | (.ok _, s1) => s1.IncrNextSenderMsgSeqNum incrFault

/-- Error string for a failed header-file scan during replay. -/
def hdrReadErr : String := "unable to read from file: header"

/-- Error string for a failed body-file read during replay. -/
def bodyReadErr : String := "unable to read from file: body"

/-- The scan loop of `fileStore.IterateMessages` over the header file
contents.  The first argument is fuel; each iteration consumes at least one
character of the header, so `header.length + 1` is always enough (the
exhaustion branch reports an error precisely so that it can never be
mistaken for a silent end of log). -/
def iterScanF {σ : Type} (beginSeqNum endSeqNum : Int) (body : Bytes)
    (cb : σ → Bytes → Except String σ) : Nat → List Char → σ → Except String σ
  | 0, _, _ => .error hdrReadErr
  | fuel + 1, hdr, acc =>
    match scanHeaderLine hdr with
    | .eof => .ok acc
    | .parseError => .error hdrReadErr
    | .line seqNum offset size rest =>
      if endSeqNum < seqNum then .ok acc
      else if seqNum < beginSeqNum then
        iterScanF beginSeqNum endSeqNum body cb fuel rest acc
      else
        match readAt body offset size with
        | none => .error bodyReadErr
        | some msg =>
          match cb acc msg with
          | .error e => .error e
          | .ok acc2 => iterScanF beginSeqNum endSeqNum body cb fuel rest acc2

/-- Model of `fileStore.IterateMessages`: flush body and header (failure
injectable via `syncFault`), then scan the header file from the start,
invoking the callback on each message in range.  The store itself is never
modified. -/
def FileStore.IterateMessages {σ : Type} (s : FileStore) (beginSeqNum endSeqNum : Int)
    (cb : σ → Bytes → Except String σ) (init : σ) (syncFault : Bool) :
    Except String σ × FileStore :=
  if syncFault then (.error "unable to flush file", s)
  else
    (iterScanF beginSeqNum endSeqNum (s.fs.body.getD []) cb
      ((s.fs.header.getD []).length + 1) (s.fs.header.getD []) init, s)

/-- The collecting callback used by `GetMessages`. -/
def collectCb : List Bytes → Bytes → Except String (List Bytes) :=
  fun msgs msg => .ok (msgs ++ [msg])

/-- Model of `fileStore.GetMessages`: collect the replayed messages in
order. -/
def FileStore.GetMessages (s : FileStore) (beginSeqNum endSeqNum : Int)
    (syncFault : Bool) : Except String (List Bytes) × FileStore :=
  s.IterateMessages beginSeqNum endSeqNum collectCb [] syncFault

/-! ### Recovery -/

/-- Modelled from the spec: the session file stores a self-delimiting text
encoding of the creation timestamp (`time.MarshalText`, not reinterpreted
here); with timestamps abstracted to `Int` we use their decimal text. -/
def timeMarshal (t : Int) : List Char := intToChars t

/-- Modelled from the spec: the inverse text decoding of the timestamp
(`time.UnmarshalText`); fails on anything the encoding does not produce. -/
def timeUnmarshal (l : List Char) : Option Int :=
  goAtoi l

/-- Recovery read of one counter file in `populateCache`: a missing file or
unparseable contents are tolerated and leave the current value. -/
def readSeqNumFile (file : Option (List Char)) (cur : Int) : Int :=
  match file with
  | none => cur
  | some content =>
    match goAtoi (trimCRLF content) with
    | some v => v
    | none => cur

/-- Model of `fileStore.populateCache`: read the session file (tracking
whether a valid creation time was recovered) and both counter files;
every individual failure is tolerated as "absent". -/
def populateCache (c : Cache) (fs : FS) : Cache × Bool :=
  let sessionRead : Option Int :=
    match fs.session with
    | none => none
    | some content => timeUnmarshal content
  ({ creationTime := sessionRead.getD c.creationTime
     nextSenderMsgSeqNum := readSeqNumFile fs.senderSeqNums c.nextSenderMsgSeqNum
     nextTargetMsgSeqNum := readSeqNumFile fs.targetSeqNums c.nextTargetMsgSeqNum },
   sessionRead.isSome)

/-- Model of `fileStore.setSession`: seek the session file to the start and
write the marshalled cached creation time. -/
def FileStore.setSession (s : FileStore) : FileStore :=
  { s with fs := { s.fs with
      session := some (writeAt0 (s.fs.session.getD []) (timeMarshal s.cache.creationTime)) } }

/-- Model of `fileStore.Refresh`: reset the cache to `now`, recover from
the files, open (creating) all five files, establish the session record if
it was not recovered, and re-assert both counter files. -/
def FileStore.Refresh (s : FileStore) (now : Int) : FileStore :=
  let pc := populateCache (Cache.reset now) s.fs
  let s1 : FileStore := { cache := pc.1, fs := s.fs.openAll, fileSync := s.fileSync }
  let s2 := if pc.2 then s1 else s1.setSession
  let s3 := (s2.SetNextSenderMsgSeqNum s2.cache.nextSenderMsgSeqNum false).2
  (s3.SetNextTargetMsgSeqNum s3.cache.nextTargetMsgSeqNum false).2

/-- Model of `newFileStore`: build a store over the given directory
contents with a fresh cache and run the initial `Refresh`. -/
def newFileStore (fs : FS) (fileSync : Bool) (now : Int) : FileStore :=
  FileStore.Refresh { cache := Cache.reset now, fs := fs, fileSync := fileSync } now

/-- Model of `fileStore.Reset`: reset the cache, close the handles, delete
all five files, then `Refresh`. -/
def FileStore.Reset (s : FileStore) (now : Int) : FileStore :=
  FileStore.Refresh { cache := Cache.reset now, fs := FS.empty, fileSync := s.fileSync } now

/-! ### Specification-side descriptions of the log and counter files -/

/-- Number of decimal digits of an integer's magnitude. -/
def numDigits (n : Int) : Nat := (natToChars n.natAbs).length

/-- The counter-file contents produced by a sequence of `setSeqNum`
overwrites, oldest first, starting from an empty file. -/
def histContent (hist : List Int) : List Char :=
  hist.foldl (fun acc m => writeAt0 acc (format019 m)) []

/-- Concatenated payloads of a list of log entries: the body file they
produce. -/
def entriesBody : List (Int × Bytes) → Bytes
  | [] => []
  | e :: rest => e.2 ++ entriesBody rest

/-- Header lines of a list of log entries laid out from byte offset
`offset` of the body file. -/
def entriesHeader (offset : Nat) : List (Int × Bytes) → List Char
  | [] => []
  | e :: rest =>
    headerLine e.1 (offset : Int) (e.2.length : Int) ++ entriesHeader (offset + e.2.length) rest

/-- Save a list of `(seqNum, payload)` messages in order, all saves
succeeding. -/
def saveAll (s : FileStore) : List (Int × Bytes) → FileStore
  | [] => s
  | e :: rest => saveAll (s.SaveMessage e.1 e.2 none).2 rest

/-- Whether a log entry's sequence number lies in the replay range. -/
def inRange (b e : Int) (p : Int × Bytes) : Bool := decide (b ≤ p.1) && decide (p.1 ≤ e)

/-- A concrete store whose sender counter file was written once with the
value 3 (used as a concrete recovery input). -/
def storeHist3 : FileStore :=
  ⟨⟨1, 1, 0⟩, ⟨some [], some [], some [], some (histContent [3]), some []⟩, true⟩

/-- A concrete store whose header file holds a single malformed line. -/
def storeBadHdr : FileStore :=
  ⟨⟨1, 1, 0⟩, ⟨some [], some ['x', '\n'], some [], some [], some []⟩, true⟩

/-- A concrete store whose cached next-sender value is 5 while its log
already holds a message with sequence number 9. -/
def storeSeq9 : FileStore :=
  ⟨⟨5, 1, 0⟩, ⟨some [1], some (headerLine 9 0 1), some [], some [], some []⟩, true⟩

/-- A concrete store whose cached next-sender value is 4 and whose log
holds one message with sequence number 2. -/
def storeSeq2 : FileStore :=
  ⟨⟨4, 1, 0⟩, ⟨some (entriesBody [((2 : Int), [9])]), some (entriesHeader 0 [((2 : Int), [9])]),
    some [], some [], some []⟩, true⟩

/-! ### Facts about decimal formatting -/

lemma natToCharsAux_eq (fuel : Nat) : ∀ n : Nat, n ≤ fuel →
    natToCharsAux fuel n = (Nat.digits 10 n).reverse.map Nat.digitChar := by
  induction fuel with
  | zero =>
    intro n h
    have hn : n = 0 := by omega
    subst hn
    simp [natToCharsAux]
  | succ fuel ih =>
    intro n h
    by_cases hn : n = 0
    · subst hn; simp [natToCharsAux]
    · have hdiv : n / 10 ≤ fuel := by
        have := Nat.div_lt_self (Nat.pos_of_ne_zero hn) (by norm_num : (1 : Nat) < 10)
        omega
      rw [natToCharsAux, if_neg hn, ih (n / 10) hdiv,
        Nat.digits_def' (by norm_num : (1 : Nat) < 10) (Nat.pos_of_ne_zero hn)]
      simp

lemma natToChars_eq (n : Nat) (h : n ≠ 0) :
    natToChars n = (Nat.digits 10 n).reverse.map Nat.digitChar := by
  rw [natToChars, if_neg h]
  exact natToCharsAux_eq (n + 1) n (by omega)

lemma digitChar_isDigit {d : Nat} (h : d < 10) : (Nat.digitChar d).isDigit = true := by
  interval_cases d <;> decide

lemma digitChar_toNat {d : Nat} (h : d < 10) : (Nat.digitChar d).toNat = 48 + d := by
  interval_cases d <;> decide

lemma natToChars_all_digit (n : Nat) : ∀ c ∈ natToChars n, c.isDigit = true := by
  by_cases h : n = 0
  · subst h
    intro c hc
    simp [natToChars] at hc
    subst hc
    decide
  · rw [natToChars_eq n h]
    intro c hc
    simp only [List.mem_map, List.mem_reverse] at hc
    obtain ⟨d, hd, rfl⟩ := hc
    exact digitChar_isDigit (Nat.digits_lt_base (by norm_num) hd)

lemma natToChars_ne_nil (n : Nat) : natToChars n ≠ [] := by
  by_cases h : n = 0
  · subst h; simp [natToChars]
  · rw [natToChars_eq n h]
    have hd : Nat.digits 10 n ≠ [] := Nat.digits_ne_nil_iff_ne_zero.mpr h
    simp [hd]

lemma intToChars_ne_nil (z : Int) : intToChars z ≠ [] := by
  rw [intToChars]
  split
  · simp
  · exact natToChars_ne_nil z.natAbs

lemma foldl_digit_zeros (k : Nat) :
    List.foldl (fun a c => 10 * a + (c.toNat - 48)) 0 (List.replicate k '0') = 0 := by
  induction k with
  | zero => rfl
  | succ k ih =>
    rw [List.replicate_succ, List.foldl_cons]
    have h0 : 10 * 0 + ('0'.toNat - 48) = 0 := by decide
    rw [h0]
    exact ih

lemma digitsVal_replicate_append (k : Nat) (l : List Char) :
    digitsVal (List.replicate k '0' ++ l) = digitsVal l := by
  rw [digitsVal, digitsVal, List.foldl_append, foldl_digit_zeros]

lemma digitsVal_revmap : ∀ ds : List Nat, (∀ d ∈ ds, d < 10) →
    ∀ a : Nat, List.foldl (fun x c => 10 * x + (c.toNat - 48)) a (ds.reverse.map Nat.digitChar)
      = a * 10 ^ ds.length + Nat.ofDigits 10 ds := by
  intro ds
  induction ds with
  | nil => intro _ a; simp [Nat.ofDigits_nil]
  | cons d t ih =>
    intro hds a
    have hd10 : d < 10 := hds d (by simp)
    rw [List.reverse_cons, List.map_append, List.foldl_append,
      ih (fun x hx => hds x (List.mem_cons_of_mem _ hx)) a]
    simp only [List.map_cons, List.map_nil, List.foldl_cons, List.foldl_nil]
    rw [digitChar_toNat hd10, Nat.ofDigits_cons]
    have hsub : 48 + d - 48 = d := by omega
    rw [hsub]
    simp only [List.length_cons, pow_succ, Nat.cast_id]
    ring

lemma digitsVal_natToChars (n : Nat) : digitsVal (natToChars n) = n := by
  by_cases h : n = 0
  · subst h; decide
  · rw [natToChars_eq n h, digitsVal,
      digitsVal_revmap (Nat.digits 10 n) (fun d hd => Nat.digits_lt_base (by norm_num) hd) 0,
      Nat.ofDigits_digits]
    ring

lemma natToChars_length_le (n k : Nat) (hk : 1 ≤ k) (h : n < 10 ^ k) :
    (natToChars n).length ≤ k := by
  by_cases hn : n = 0
  · subst hn; simpa [natToChars] using hk
  · rw [natToChars_eq n hn]
    simp only [List.length_map, List.length_reverse]
    rw [Nat.digits_len 10 n (by norm_num) hn]
    have := Nat.log_lt_of_lt_pow hn h
    omega

/-! ### Facts about decimal parsing -/

lemma isDigit_not_fmtSpace {c : Char} (h : c.isDigit = true) : isFmtSpace c = false := by
  have h1 : c ≠ ' ' := by rintro rfl; exact absurd h (by decide)
  have h2 : c ≠ '\t' := by rintro rfl; exact absurd h (by decide)
  have h3 : c ≠ '\x0b' := by rintro rfl; exact absurd h (by decide)
  have h4 : c ≠ '\x0c' := by rintro rfl; exact absurd h (by decide)
  have h5 : c ≠ '\r' := by rintro rfl; exact absurd h (by decide)
  simp [isFmtSpace, h1, h2, h3, h4, h5]

lemma isDigit_ne_minus {c : Char} (h : c.isDigit = true) : c ≠ '-' := by
  rintro rfl; exact absurd h (by decide)

lemma isDigit_ne_plus {c : Char} (h : c.isDigit = true) : c ≠ '+' := by
  rintro rfl; exact absurd h (by decide)

lemma isDigit_ne_nl {c : Char} (h : c.isDigit = true) : c ≠ '\n' := by
  rintro rfl; exact absurd h (by decide)

lemma isDigit_not_crlf {c : Char} (h : c.isDigit = true) : isCRLF c = false := by
  have h1 : c ≠ '\r' := by rintro rfl; exact absurd h (by decide)
  have h2 : c ≠ '\n' := by rintro rfl; exact absurd h (by decide)
  simp [isCRLF, h1, h2]

lemma takeWhile_all_append (p : Char → Bool) :
    ∀ a r : List Char, (∀ c ∈ a, p c = true) → (∀ c, r.head? = some c → p c = false) →
      (a ++ r).takeWhile p = a ∧ (a ++ r).dropWhile p = r := by
  intro a
  induction a with
  | nil =>
    intro r _ hr
    cases r with
    | nil => simp
    | cons c r' =>
      have hc := hr c rfl
      simp [List.takeWhile_cons, List.dropWhile_cons, hc]
  | cons x a' ih =>
    intro r ha hr
    have hx : p x = true := ha x (by simp)
    have hrec := ih r (fun c hc => ha c (List.mem_cons_of_mem _ hc)) hr
    simp [List.takeWhile_cons, List.dropWhile_cons, hx, hrec.1, hrec.2]

lemma skipSpaces_of_head (l : List Char)
    (h : ∀ c, l.head? = some c → isFmtSpace c = false) :
    skipSpaces l = l := by
  cases l with
  | nil => rfl
  | cons c l' =>
    have hc := h c rfl
    simp [skipSpaces, List.dropWhile_cons, hc]

lemma scanIntDigits_natToChars (neg : Bool) (n : Nat) (r : List Char)
    (hr : ∀ c, r.head? = some c → c.isDigit = false) :
    scanIntDigits neg (natToChars n ++ r)
      = .value (if neg then -((n : Nat) : Int) else ((n : Nat) : Int)) r := by
  obtain ⟨ht, hd⟩ :=
    takeWhile_all_append Char.isDigit (natToChars n) r (natToChars_all_digit n) hr
  have hne : (natToChars n ++ r).isEmpty = false := by
    cases h : natToChars n with
    | nil => exact absurd h (natToChars_ne_nil n)
    | cons c cs => rfl
  have hne2 : (natToChars n).isEmpty = false := by
    cases h : natToChars n with
    | nil => exact absurd h (natToChars_ne_nil n)
    | cons c cs => rfl
  rw [scanIntDigits, if_neg (by simp [hne]), ht, if_neg (by simp [hne2]), hd,
    digitsVal_natToChars]

lemma scanIntGo_natToChars (n : Nat) (r : List Char)
    (hr : ∀ c, r.head? = some c → c.isDigit = false) :
    scanIntGo (natToChars n ++ r) = .value ((n : Nat) : Int) r := by
  obtain ⟨c, cs, hc⟩ : ∃ c cs, natToChars n = c :: cs := by
    cases h : natToChars n with
    | nil => exact absurd h (natToChars_ne_nil n)
    | cons c cs => exact ⟨c, cs, rfl⟩
  have hcd : c.isDigit = true := natToChars_all_digit n c (by rw [hc]; simp)
  have hskip : skipSpaces (natToChars n ++ r) = natToChars n ++ r := by
    apply skipSpaces_of_head
    intro c' hc'
    rw [hc, List.cons_append, List.head?_cons] at hc'
    cases hc'
    exact isDigit_not_fmtSpace hcd
  have hhead : (skipSpaces (natToChars n ++ r)).head? = some c := by
    rw [hskip, hc, List.cons_append, List.head?_cons]
  have hne : (skipSpaces (natToChars n ++ r)).isEmpty = false := by
    rw [hskip, hc, List.cons_append]
    rfl
  rw [scanIntGo, if_neg (by simp [hne]),
    if_neg (by rw [hhead]; simpa using isDigit_ne_nl hcd),
    if_neg (by rw [hhead]; simpa using isDigit_ne_minus hcd),
    if_neg (by rw [hhead]; simpa using isDigit_ne_plus hcd),
    hskip, scanIntDigits_natToChars false n r hr]
  rfl

lemma scanIntGo_intToChars (z : Int) (r : List Char)
    (hr : ∀ c, r.head? = some c → c.isDigit = false) :
    scanIntGo (intToChars z ++ r) = .value z r := by
  by_cases hz : z < 0
  · rw [intToChars, if_pos hz, List.cons_append]
    have hskip : skipSpaces ('-' :: (natToChars z.natAbs ++ r))
        = '-' :: (natToChars z.natAbs ++ r) := by
      apply skipSpaces_of_head
      intro c' hc'
      rw [List.head?_cons] at hc'
      cases hc'
      decide
    rw [scanIntGo, if_neg (by rw [hskip]; simp),
      if_neg (by rw [hskip, List.head?_cons]; simp),
      if_pos (by rw [hskip, List.head?_cons]),
      hskip]
    simp only [List.tail_cons]
    rw [scanIntDigits_natToChars true z.natAbs r hr]
    have habs : ((z.natAbs : Nat) : Int) = -z := by omega
    show IntScan.value (-((z.natAbs : Nat) : Int)) r = .value z r
    rw [habs, neg_neg]
  · rw [intToChars, if_neg hz, scanIntGo_natToChars z.natAbs r hr,
      Int.natAbs_of_nonneg (not_lt.mp hz)]

lemma expectChar_cons_self (c : Char) (r : List Char) : expectChar c (c :: r) = some r := by
  simp [expectChar]

lemma scanHeaderLine_headerLine (a b c : Int) (r : List Char) :
    scanHeaderLine (headerLine a b c ++ r) = .line a b c r := by
  have h1 : headerLine a b c ++ r
      = intToChars a ++ (',' :: (intToChars b ++ (',' :: (intToChars c ++ ('\n' :: r))))) := by
    simp [headerLine]
  have hrA : ∀ x : Char,
      (',' :: (intToChars b ++ (',' :: (intToChars c ++ ('\n' :: r))))).head? = some x →
        x.isDigit = false := by
    intro x hx
    rw [List.head?_cons] at hx
    cases hx
    decide
  have hrB : ∀ x : Char, (',' :: (intToChars c ++ ('\n' :: r))).head? = some x →
      x.isDigit = false := by
    intro x hx
    rw [List.head?_cons] at hx
    cases hx
    decide
  have hrC : ∀ x : Char, ('\n' :: r).head? = some x → x.isDigit = false := by
    intro x hx
    rw [List.head?_cons] at hx
    cases hx
    decide
  rw [h1]
  simp only [scanHeaderLine, scanIntGo_intToChars a _ hrA, expectChar_cons_self,
    scanIntGo_intToChars b _ hrB, scanIntGo_intToChars c _ hrC]
  simp [matchNL]

lemma scanHeaderLine_nil : scanHeaderLine [] = .eof := rfl

/-! ### Facts about the counter-file format -/

lemma format019_nonneg_eq (n : Int) (h : 0 ≤ n) :
    format019 n = List.replicate (19 - (natToChars n.natAbs).length) '0' ++ natToChars n.natAbs := by
  rw [format019, if_neg (by omega)]

lemma format019_all_digit (n : Int) (h : 0 ≤ n) : ∀ c ∈ format019 n, c.isDigit = true := by
  rw [format019_nonneg_eq n h]
  intro c hc
  rcases List.mem_append.mp hc with hc' | hc'
  · rw [List.eq_of_mem_replicate hc']
    decide
  · exact natToChars_all_digit _ c hc'

lemma format019_ne_nil (n : Int) (h : 0 ≤ n) : format019 n ≠ [] := by
  rw [format019_nonneg_eq n h]
  intro hx
  exact natToChars_ne_nil n.natAbs (List.append_eq_nil.mp hx).2

lemma format019_length (n : Int) (h0 : 0 ≤ n) (h1 : n < 10 ^ 19) :
    (format019 n).length = 19 := by
  rw [format019_nonneg_eq n h0]
  have habs : n.natAbs < 10 ^ 19 := by
    have : ((10 : Nat) ^ 19 : Int) = (10 : Int) ^ 19 := by push_cast
    omega
  have hle := natToChars_length_le n.natAbs 19 (by norm_num) habs
  simp only [List.length_append, List.length_replicate]
  omega

lemma format019_length_mono (m n : Int) (hm : 0 ≤ m) (hn : 0 ≤ n)
    (h : (natToChars m.natAbs).length ≤ (natToChars n.natAbs).length) :
    (format019 m).length ≤ (format019 n).length := by
  rw [format019_nonneg_eq m hm, format019_nonneg_eq n hn]
  simp only [List.length_append, List.length_replicate]
  omega

lemma goAtoi_all_digit (l : List Char) (hne : l ≠ []) (hd : ∀ c ∈ l, c.isDigit = true) :
    goAtoi l = some ((digitsVal l : Nat) : Int) := by
  obtain ⟨c, cs, rfl⟩ : ∃ c cs, l = c :: cs := by
    cases l with
    | nil => exact absurd rfl hne
    | cons c cs => exact ⟨c, cs, rfl⟩
  have hcd : c.isDigit = true := hd c (by simp)
  rw [goAtoi]
  rw [if_neg (by simp)]
  rw [if_neg (by rw [List.head?_cons]; simpa using isDigit_ne_minus hcd)]
  rw [if_neg (by rw [List.head?_cons]; simpa using isDigit_ne_plus hcd)]
  rw [if_pos (List.all_eq_true.mpr hd)]

lemma digitsVal_format019 (n : Int) (h : 0 ≤ n) : digitsVal (format019 n) = n.natAbs := by
  rw [format019_nonneg_eq n h, digitsVal_replicate_append, digitsVal_natToChars]

lemma goAtoi_format019 (n : Int) (h : 0 ≤ n) : goAtoi (format019 n) = some n := by
  rw [goAtoi_all_digit (format019 n) (format019_ne_nil n h) (format019_all_digit n h),
    digitsVal_format019 n h]
  congr 1
  omega

lemma dropWhile_eq_self_of_all (p : Char → Bool) (l : List Char)
    (h : ∀ c ∈ l, p c = false) : l.dropWhile p = l := by
  cases l with
  | nil => rfl
  | cons c cs => simp [List.dropWhile_cons, h c (by simp)]

lemma trimCRLF_all_digit (l : List Char) (hd : ∀ c ∈ l, c.isDigit = true) :
    trimCRLF l = l := by
  rw [trimCRLF,
    dropWhile_eq_self_of_all isCRLF l (fun c hc => isDigit_not_crlf (hd c hc)),
    dropWhile_eq_self_of_all isCRLF l.reverse
      (fun c hc => isDigit_not_crlf (hd c (List.mem_reverse.mp hc))),
    List.reverse_reverse]

lemma readSeqNumFile_format019 (n cur : Int) (h : 0 ≤ n) :
    readSeqNumFile (some (format019 n)) cur = n := by
  rw [readSeqNumFile, trimCRLF_all_digit _ (format019_all_digit n h), goAtoi_format019 n h]

/-! ### Facts about overwrite-in-place -/

lemma writeAt0_length (old new : List Char) :
    (writeAt0 old new).length = max old.length new.length := by
  rw [writeAt0]
  simp only [List.length_append, List.length_drop]
  omega

lemma writeAt0_full (old new : List Char) (h : old.length ≤ new.length) :
    writeAt0 old new = new := by
  rw [writeAt0, List.drop_eq_nil_of_le h, List.append_nil]

lemma histContent_foldl_le (bound : Nat) : ∀ (hist : List Int) (acc : List Char),
    (∀ m ∈ hist, (format019 m).length ≤ bound) → acc.length ≤ bound →
    (hist.foldl (fun acc m => writeAt0 acc (format019 m)) acc).length ≤ bound := by
  intro hist
  induction hist with
  | nil => intro acc _ hacc; simpa using hacc
  | cons m t ih =>
    intro acc h hacc
    rw [List.foldl_cons]
    apply ih
    · exact fun x hx => h x (List.mem_cons_of_mem _ hx)
    · rw [writeAt0_length]
      have := h m (by simp)
      omega

lemma histContent_length_le (hist : List Int) (bound : Nat)
    (h : ∀ m ∈ hist, (format019 m).length ≤ bound) :
    (histContent hist).length ≤ bound :=
  histContent_foldl_le bound hist [] h (by simp)

/-! ### Facts about the message log -/

lemma entriesBody_append (xs ys : List (Int × Bytes)) :
    entriesBody (xs ++ ys) = entriesBody xs ++ entriesBody ys := by
  induction xs with
  | nil => simp [entriesBody]
  | cons x t ih => simp [entriesBody, ih]

lemma entriesHeader_append (xs : List (Int × Bytes)) : ∀ (ys : List (Int × Bytes)) (o : Nat),
    entriesHeader o (xs ++ ys)
      = entriesHeader o xs ++ entriesHeader (o + (entriesBody xs).length) ys := by
  induction xs with
  | nil => intro ys o; simp [entriesHeader, entriesBody]
  | cons x t ih =>
    intro ys o
    simp only [List.cons_append, entriesHeader, entriesBody, List.length_append, List.append_eq]
    rw [ih ys (o + x.2.length)]
    simp [List.append_assoc, Nat.add_assoc]

lemma headerLine_length_pos (a b c : Int) : 0 < (headerLine a b c).length := by
  rw [headerLine]
  simp only [List.length_append, List.length_cons, List.length_nil]
  omega

lemma readAt_of_drop (body : Bytes) (o : Nat) (m rest : Bytes)
    (h : body.drop o = m ++ rest) :
    readAt body (o : Int) (m.length : Int) = some m := by
  by_cases hm : m = []
  · subst hm
    simp [readAt]
  · have hmlen : 0 < m.length := List.length_pos.mpr hm
    have hlen := congrArg List.length h
    simp only [List.length_drop, List.length_append] at hlen
    rw [readAt, if_neg (by exact_mod_cast Nat.pos_iff_ne_zero.mp hmlen), if_pos]
    · rw [show ((o : Int)).toNat = o by omega, show ((m.length : Int)).toNat = m.length by omega,
        h, List.take_left]
    · refine ⟨by exact_mod_cast Nat.zero_le o, by exact_mod_cast hmlen, ?_⟩
      rw [show ((o : Int)).toNat = o by omega, show ((m.length : Int)).toNat = m.length by omega]
      omega

lemma iterScanF_log (b e : Int) (body : Bytes) :
    ∀ (entries : List (Int × Bytes)) (o : Nat) (extra : Bytes) (acc : List Bytes) (fuel : Nat),
      body.drop o = entriesBody entries ++ extra →
      (entries.map Prod.fst).Pairwise (· < ·) →
      (entriesHeader o entries).length < fuel →
      iterScanF b e body collectCb fuel (entriesHeader o entries) acc
        = .ok (acc ++ (entries.filter (inRange b e)).map Prod.snd) := by
  intro entries
  induction entries with
  | nil =>
    intro o extra acc fuel hbody hsort hfuel
    obtain ⟨f, rfl⟩ : ∃ f, fuel = f + 1 := ⟨fuel - 1, by omega⟩
    simp [iterScanF, scanHeaderLine_nil, entriesHeader]
  | cons p t ih =>
    intro o extra acc fuel hbody hsort hfuel
    obtain ⟨sq, m⟩ := p
    obtain ⟨f, rfl⟩ : ∃ f, fuel = f + 1 := ⟨fuel - 1, by omega⟩
    have hhdr : entriesHeader o ((sq, m) :: t)
        = headerLine sq (o : Int) (m.length : Int) ++ entriesHeader (o + m.length) t := rfl
    have h1 : body.drop o = m ++ (entriesBody t ++ extra) := by
      rw [hbody]
      simp [entriesBody]
    have hbody' : body.drop (o + m.length) = entriesBody t ++ extra := by
      rw [← List.drop_drop, h1, List.drop_left]
    have hsort' : (t.map Prod.fst).Pairwise (· < ·) := by
      simp only [List.map_cons] at hsort
      exact hsort.of_cons
    have hfuel' : (entriesHeader (o + m.length) t).length < f := by
      rw [hhdr] at hfuel
      have := headerLine_length_pos sq (o : Int) (m.length : Int)
      simp only [List.length_append] at hfuel
      omega
    rw [hhdr]
    simp only [iterScanF, scanHeaderLine_headerLine]
    by_cases hgt : e < sq
    · rw [if_pos hgt]
      have hrest : t.filter (inRange b e) = [] := by
        apply List.filter_eq_nil_iff.mpr
        intro x hx
        have hlt : sq < x.1 := by
          simp only [List.map_cons, List.pairwise_cons] at hsort
          exact hsort.1 x.1 (List.mem_map_of_mem Prod.fst hx)
        rw [inRange, decide_eq_false (by omega : ¬ x.1 ≤ e)]
        simp
      have hthis : inRange b e (sq, m) = false := by
        rw [inRange, decide_eq_false (by omega : ¬ (sq, m).1 ≤ e)]
        simp
      simp [List.filter_cons, hthis, hrest]
    · rw [if_neg hgt]
      by_cases hlt : sq < b
      · rw [if_pos hlt]
        rw [ih (o + m.length) extra acc f hbody' hsort' hfuel']
        have hthis : inRange b e (sq, m) = false := by
          rw [inRange, decide_eq_false (by omega : ¬ b ≤ (sq, m).1)]
          simp
        simp [List.filter_cons, hthis]
      · rw [if_neg hlt]
        rw [readAt_of_drop body o m (entriesBody t ++ extra) h1]
        show iterScanF b e body collectCb f (entriesHeader (o + m.length) t) (acc ++ [m])
          = .ok (acc ++ (((sq, m) :: t).filter (inRange b e)).map Prod.snd)
        rw [ih (o + m.length) extra (acc ++ [m]) f hbody' hsort' hfuel']
        have hthis : inRange b e (sq, m) = true := by
          rw [inRange, decide_eq_true (by omega : b ≤ (sq, m).1),
            decide_eq_true (by omega : (sq, m).1 ≤ e)]
          rfl
        simp [List.filter_cons, hthis, List.append_assoc]

lemma saveMessage_state (s : FileStore) (sq : Int) (m : Bytes) :
    s.SaveMessage sq m none
      = (.ok (), { s with fs := { s.fs with
          header := some ((s.fs.header.getD [])
            ++ headerLine sq ((s.fs.body.getD []).length : Int) (m.length : Int))
          body := some ((s.fs.body.getD []) ++ m) } }) := by
  rw [FileStore.SaveMessage]
  simp

lemma saveMessage_proj (s : FileStore) (sq : Int) (m : Bytes) :
    (s.SaveMessage sq m none).2.cache = s.cache ∧
    (s.SaveMessage sq m none).2.fileSync = s.fileSync ∧
    (s.SaveMessage sq m none).2.fs.session = s.fs.session ∧
    (s.SaveMessage sq m none).2.fs.senderSeqNums = s.fs.senderSeqNums ∧
    (s.SaveMessage sq m none).2.fs.targetSeqNums = s.fs.targetSeqNums := by
  rw [saveMessage_state]
  exact ⟨rfl, rfl, rfl, rfl, rfl⟩

lemma saveAll_state : ∀ (entries done : List (Int × Bytes)) (s : FileStore),
    s.fs.header = some (entriesHeader 0 done) →
    s.fs.body = some (entriesBody done) →
    (saveAll s entries).cache = s.cache ∧
    (saveAll s entries).fileSync = s.fileSync ∧
    (saveAll s entries).fs.session = s.fs.session ∧
    (saveAll s entries).fs.senderSeqNums = s.fs.senderSeqNums ∧
    (saveAll s entries).fs.targetSeqNums = s.fs.targetSeqNums ∧
    (saveAll s entries).fs.header = some (entriesHeader 0 (done ++ entries)) ∧
    (saveAll s entries).fs.body = some (entriesBody (done ++ entries)) := by
  intro entries
  induction entries with
  | nil =>
    intro done s hh hb
    refine ⟨rfl, rfl, rfl, rfl, rfl, ?_, ?_⟩ <;> simp [saveAll, hh, hb]
  | cons p t ih =>
    intro done s hh hb
    obtain ⟨sq, m⟩ := p
    have hh' : (s.SaveMessage sq m none).2.fs.header
        = some (entriesHeader 0 (done ++ [(sq, m)])) := by
      rw [saveMessage_state]
      show some ((s.fs.header.getD [])
          ++ headerLine sq ((s.fs.body.getD []).length : Int) (m.length : Int)) = _
      rw [hh, hb]
      simp only [Option.getD_some]
      rw [entriesHeader_append done [(sq, m)] 0]
      simp [entriesHeader, Nat.zero_add]
    have hb' : (s.SaveMessage sq m none).2.fs.body
        = some (entriesBody (done ++ [(sq, m)])) := by
      rw [saveMessage_state]
      show some ((s.fs.body.getD []) ++ m) = _
      rw [hb]
      simp only [Option.getD_some]
      rw [entriesBody_append done [(sq, m)]]
      simp [entriesBody]
    obtain ⟨hc, hf, hsess, hsnd, htgt, hhead, hbody⟩ :=
      ih (done ++ [(sq, m)]) (s.SaveMessage sq m none).2 hh' hb'
    have hp := saveMessage_proj s sq m
    rw [saveAll]
    refine ⟨hc.trans hp.1, hf.trans hp.2.1, hsess.trans hp.2.2.1, hsnd.trans hp.2.2.2.1,
      htgt.trans hp.2.2.2.2, ?_, ?_⟩
    · rw [hhead]
      simp [List.append_assoc]
    · rw [hbody]
      simp [List.append_assoc]

lemma refresh_counters (s : FileStore) (now : Int) :
    (s.Refresh now).cache.nextSenderMsgSeqNum = readSeqNumFile s.fs.senderSeqNums 1 ∧
    (s.Refresh now).cache.nextTargetMsgSeqNum = readSeqNumFile s.fs.targetSeqNums 1 := by
  by_cases h : (populateCache (Cache.reset now) s.fs).2
  · simp only [FileStore.Refresh, h, if_true]
    exact ⟨rfl, rfl⟩
  · simp only [FileStore.Refresh, h, if_false]
    exact ⟨rfl, rfl⟩

lemma sorted_head_le (entries : List (Int × Bytes))
    (hsort : (entries.map Prod.fst).Pairwise (· < ·)) (hne : entries ≠ []) :
    ∀ p ∈ entries, (entries.head hne).1 ≤ p.1 := by
  cases entries with
  | nil => exact absurd rfl hne
  | cons q t =>
    intro p hp
    rcases List.mem_cons.mp hp with rfl | hp'
    · exact le_refl _
    · simp only [List.map_cons, List.pairwise_cons] at hsort
      have := hsort.1 p.1 (List.mem_map_of_mem Prod.fst hp')
      simp only [List.head_cons]
      omega

lemma sorted_le_getLast : ∀ entries : List (Int × Bytes),
    (entries.map Prod.fst).Pairwise (· < ·) → ∀ hne : entries ≠ [],
      ∀ p ∈ entries, p.1 ≤ (entries.getLast hne).1 := by
  intro entries
  induction entries with
  | nil => intro _ hne; exact absurd rfl hne
  | cons q t ih =>
    intro hsort hne p hp
    cases t with
    | nil =>
      rcases List.mem_cons.mp hp with rfl | hp'
      · exact le_refl _
      · exact absurd hp' (List.not_mem_nil p)
    | cons q2 t2 =>
      have hne2 : q2 :: t2 ≠ [] := by simp
      have hlast : (q :: q2 :: t2).getLast hne = (q2 :: t2).getLast hne2 :=
        List.getLast_cons hne2
      have hsort' : ((q2 :: t2).map Prod.fst).Pairwise (· < ·) := by
        simp only [List.map_cons] at hsort ⊢
        exact hsort.of_cons
      rcases List.mem_cons.mp hp with rfl | hp'
      · have hmem : (q2 :: t2).getLast hne2 ∈ q2 :: t2 := List.getLast_mem hne2
        simp only [List.map_cons, List.pairwise_cons] at hsort
        have := hsort.1 ((q2 :: t2).getLast hne2).1 (List.mem_map_of_mem Prod.fst hmem)
        rw [hlast]
        omega
      · rw [hlast]
        exact ih hsort' hne2 p hp'

/-! ### The claims -/

/-- C1: starting from a fresh store, after a sequence of `SaveMessage`
calls with strictly increasing sequence numbers, `GetMessages b e` returns
exactly the saved payloads whose sequence number lies in `[b, e]`, in
ascending order and byte-for-byte equal to what was saved; the full range
`[seq_1, seq_k]` returns all payloads in order, and a range containing no
saved message returns the empty sequence with no error. -/
theorem c1_log_integrity_range_filtering (entries : List (Int × Bytes)) (sync : Bool) (now : Int)
    (hsort : (entries.map Prod.fst).Pairwise (· < ·)) :
    (∀ b e, ((saveAll (newFileStore FS.empty sync now) entries).GetMessages b e false).1
        = .ok ((entries.filter (inRange b e)).map Prod.snd))
    ∧ (∀ hne : entries ≠ [],
        ((saveAll (newFileStore FS.empty sync now) entries).GetMessages
            (entries.head hne).1 (entries.getLast hne).1 false).1
          = .ok (entries.map Prod.snd))
    ∧ (∀ b e, (∀ p ∈ entries, inRange b e p = false) →
        ((saveAll (newFileStore FS.empty sync now) entries).GetMessages b e false).1
          = .ok []) := by
  have hfresh_h : (newFileStore FS.empty sync now).fs.header = some (entriesHeader 0 []) := rfl
  have hfresh_b : (newFileStore FS.empty sync now).fs.body = some (entriesBody []) := rfl
  obtain ⟨-, -, -, -, -, hhead, hbody⟩ :=
    saveAll_state entries [] (newFileStore FS.empty sync now) hfresh_h hfresh_b
  simp only [List.nil_append] at hhead hbody
  have hmain : ∀ b e,
      ((saveAll (newFileStore FS.empty sync now) entries).GetMessages b e false).1
        = .ok ((entries.filter (inRange b e)).map Prod.snd) := by
    intro b e
    show iterScanF b e ((saveAll (newFileStore FS.empty sync now) entries).fs.body.getD [])
        collectCb
        (((saveAll (newFileStore FS.empty sync now) entries).fs.header.getD []).length + 1)
        ((saveAll (newFileStore FS.empty sync now) entries).fs.header.getD []) [] = _
    rw [hhead, hbody]
    simp only [Option.getD_some]
    rw [iterScanF_log b e (entriesBody entries) entries 0 [] []
      ((entriesHeader 0 entries).length + 1) (by simp) hsort (by omega)]
    simp
  refine ⟨hmain, ?_, ?_⟩
  · intro hne
    rw [hmain]
    have hfull : entries.filter (inRange (entries.head hne).1 (entries.getLast hne).1)
        = entries :=
      List.filter_eq_self.mpr fun p hp => by
        rw [inRange, decide_eq_true (sorted_head_le entries hsort hne p hp),
          decide_eq_true (sorted_le_getLast entries hsort hne p hp)]
        rfl
    rw [hfull]
  · intro b e hnone
    rw [hmain]
    have hnil : entries.filter (inRange b e) = [] :=
      List.filter_eq_nil_iff.mpr fun p hp => by
        rw [hnone p hp]
        simp
    rw [hnil]
    rfl

/-- Witness for C1: two saved messages, range `[1, 2]` returns exactly the
first payload. -/
theorem c1_witness :
    (([((1 : Int), ([10, 11] : Bytes)), (3, [20])].map Prod.fst).Pairwise (· < ·)
    ∧ ((saveAll (newFileStore FS.empty true 0)
        [((1 : Int), ([10, 11] : Bytes)), (3, [20])]).GetMessages 1 2 false).1
      = .ok [[10, 11]]) := by
  refine ⟨by decide, ?_⟩
  have h := (c1_log_integrity_range_filtering
    [((1 : Int), ([10, 11] : Bytes)), (3, [20])] true 0 (by decide)).1 1 2
  have hv : (([((1 : Int), ([10, 11] : Bytes)), (3, [20])].filter (inRange 1 2)).map Prod.snd)
      = [[10, 11]] := by decide
  rw [hv] at h
  exact h

/-- C2: after `SetNextSenderMsgSeqNum n` succeeds, a fresh recovery pass
over the same files (a new store instance on the same directory) yields
`NextSenderMsgSeqNum() = n`, provided the decimal digit count of `n` is at
least that of every (positive) value previously stored in that counter
file. -/
theorem c2_counter_roundtrip (s : FileStore) (n : Int) (hist : List Int) (sync : Bool)
    (now : Int) (hn : 0 < n) (hhist : ∀ m ∈ hist, 0 < m)
    (hfile : s.fs.senderSeqNums = some (histContent hist))
    (hdig : ∀ m ∈ hist, numDigits m ≤ numDigits n) :
    (newFileStore (s.SetNextSenderMsgSeqNum n false).2.fs sync now).NextSenderMsgSeqNum = n := by
  have hlen : ∀ m ∈ hist, (format019 m).length ≤ (format019 n).length := fun m hm =>
    format019_length_mono m n (le_of_lt (hhist m hm)) (le_of_lt hn) (hdig m hm)
  have hcontent : (s.SetNextSenderMsgSeqNum n false).2.fs.senderSeqNums
      = some (writeAt0 (s.fs.senderSeqNums.getD []) (format019 n)) := rfl
  rw [hfile] at hcontent
  simp only [Option.getD_some] at hcontent
  rw [writeAt0_full _ _ (histContent_length_le hist (format019 n).length hlen)] at hcontent
  have href := (refresh_counters
    { cache := Cache.reset now, fs := (s.SetNextSenderMsgSeqNum n false).2.fs,
      fileSync := sync } now).1
  show (newFileStore (s.SetNextSenderMsgSeqNum n false).2.fs sync now).cache.nextSenderMsgSeqNum
    = n
  rw [newFileStore, href]
  show readSeqNumFile (s.SetNextSenderMsgSeqNum n false).2.fs.senderSeqNums 1 = n
  rw [hcontent]
  exact readSeqNumFile_format019 n 1 (le_of_lt hn)

/-- Witness for C2: the counter file previously held the value 3; writing
57 and recovering afresh yields 57. -/
theorem c2_witness :
    ((0 : Int) < 57 ∧ (∀ m ∈ ([3] : List Int), 0 < m)
      ∧ storeHist3.fs.senderSeqNums = some (histContent [3])
      ∧ (∀ m ∈ ([3] : List Int), numDigits m ≤ numDigits 57))
    ∧ (newFileStore (storeHist3.SetNextSenderMsgSeqNum 57 false).2.fs true 5).NextSenderMsgSeqNum
      = 57 :=
  ⟨⟨by decide, by decide, rfl, by decide⟩,
    c2_counter_roundtrip storeHist3 57 [3] true 5 (by decide) (by decide) rfl (by decide)⟩

lemma saveMessage_log (s : FileStore) (done : List (Int × Bytes)) (sq : Int) (m : Bytes)
    (hh : s.fs.header = some (entriesHeader 0 done))
    (hb : s.fs.body = some (entriesBody done)) :
    (s.SaveMessage sq m none).2.fs.header = some (entriesHeader 0 (done ++ [(sq, m)])) ∧
    (s.SaveMessage sq m none).2.fs.body = some (entriesBody (done ++ [(sq, m)])) := by
  constructor
  · rw [saveMessage_state]
    show some ((s.fs.header.getD [])
        ++ headerLine sq ((s.fs.body.getD []).length : Int) (m.length : Int)) = _
    rw [hh, hb]
    simp only [Option.getD_some]
    rw [entriesHeader_append done [(sq, m)] 0]
    simp [entriesHeader, Nat.zero_add]
  · rw [saveMessage_state]
    show some ((s.fs.body.getD []) ++ m) = _
    rw [hb]
    simp only [Option.getD_some]
    rw [entriesBody_append done [(sq, m)]]
    simp [entriesBody]

/-- C4 counterexample: with cached next-sender 5 and an already-logged
message with sequence number 9, `SaveMessageAndIncrNextSenderMsgSeqNum 7`
succeeds, but `NextSenderMsgSeqNum` becomes 6 (the cached value plus one),
not 8, and `GetMessages 7 7` returns `[]`, not the saved payload. -/
theorem c4_counterexample :
    (storeSeq9.SaveMessageAndIncrNextSenderMsgSeqNum 7 [2] none false).1 = .ok () ∧
    (storeSeq9.SaveMessageAndIncrNextSenderMsgSeqNum 7 [2] none false).2.NextSenderMsgSeqNum
      ≠ 7 + 1 ∧
    ((storeSeq9.SaveMessageAndIncrNextSenderMsgSeqNum 7 [2] none false).2.GetMessages
        7 7 false).1 ≠ .ok [[2]] := by
  refine ⟨rfl, by decide, ?_⟩
  intro h
  rw [show ((storeSeq9.SaveMessageAndIncrNextSenderMsgSeqNum 7 [2] none false).2.GetMessages
      7 7 false).1 = .ok [] from rfl] at h
  exact absurd (Except.ok.inj h) (by decide)

/-- C4 amended: when `NextSenderMsgSeqNum()` equals `n` at the time of the
call and the log is an ascending log of sequence numbers below `n`, a
successful `SaveMessageAndIncrNextSenderMsgSeqNum(n, payload)` is followed
by `NextSenderMsgSeqNum()` returning `n + 1` and `GetMessages(n, n)`
returning exactly `[payload]`. -/
theorem c4_amended_save_and_incr (s : FileStore) (n : Int) (msg : Bytes)
    (entries : List (Int × Bytes))
    (hh : s.fs.header = some (entriesHeader 0 entries))
    (hb : s.fs.body = some (entriesBody entries))
    (hcache : s.cache.nextSenderMsgSeqNum = n)
    (hlt : ∀ sq ∈ entries.map Prod.fst, sq < n)
    (hsort : (entries.map Prod.fst).Pairwise (· < ·)) :
    (s.SaveMessageAndIncrNextSenderMsgSeqNum n msg none false).1 = .ok () ∧
    (s.SaveMessageAndIncrNextSenderMsgSeqNum n msg none false).2.NextSenderMsgSeqNum = n + 1 ∧
    ((s.SaveMessageAndIncrNextSenderMsgSeqNum n msg none false).2.GetMessages n n false).1
      = .ok [msg] := by
  have hr : s.SaveMessageAndIncrNextSenderMsgSeqNum n msg none false
      = (s.SaveMessage n msg none).2.IncrNextSenderMsgSeqNum false := by
    rw [FileStore.SaveMessageAndIncrNextSenderMsgSeqNum, saveMessage_state]
  obtain ⟨hlh, hlb⟩ := saveMessage_log s entries n msg hh hb
  have hc2 : (s.SaveMessage n msg none).2.cache = s.cache := (saveMessage_proj s n msg).1
  refine ⟨?_, ?_, ?_⟩
  · rw [hr]
    rfl
  · rw [hr]
    show (s.SaveMessage n msg none).2.cache.nextSenderMsgSeqNum + 1 = n + 1
    rw [hc2, hcache]
  · rw [hr]
    have hih : ((s.SaveMessage n msg none).2.IncrNextSenderMsgSeqNum false).2.fs.header
        = some (entriesHeader 0 (entries ++ [(n, msg)])) := hlh
    have hib : ((s.SaveMessage n msg none).2.IncrNextSenderMsgSeqNum false).2.fs.body
        = some (entriesBody (entries ++ [(n, msg)])) := hlb
    show iterScanF n n
        ((((s.SaveMessage n msg none).2.IncrNextSenderMsgSeqNum false).2.fs.body.getD []))
        collectCb
        (((((s.SaveMessage n msg none).2.IncrNextSenderMsgSeqNum
          false).2.fs.header.getD []).length + 1))
        ((((s.SaveMessage n msg none).2.IncrNextSenderMsgSeqNum false).2.fs.header.getD []))
        [] = .ok [msg]
    rw [hih, hib]
    simp only [Option.getD_some]
    have hsort' : ((entries ++ [(n, msg)]).map Prod.fst).Pairwise (· < ·) := by
      rw [List.map_append]
      refine List.pairwise_append.mpr ⟨hsort, by simp, ?_⟩
      intro a ha bb hbb
      simp only [List.map_cons, List.map_nil, List.mem_singleton] at hbb
      subst hbb
      exact hlt a ha
    rw [iterScanF_log n n (entriesBody (entries ++ [(n, msg)])) (entries ++ [(n, msg)]) 0 [] []
      ((entriesHeader 0 (entries ++ [(n, msg)])).length + 1) (by simp) hsort' (by omega)]
    rw [List.filter_append]
    have h1 : entries.filter (inRange n n) = [] :=
      List.filter_eq_nil_iff.mpr fun p hp => by
        have := hlt p.1 (List.mem_map_of_mem Prod.fst hp)
        rw [inRange, decide_eq_false (by omega : ¬ n ≤ p.1)]
        simp
    have h2 : ([((n : Int), msg)]).filter (inRange n n) = [(n, msg)] := by
      simp [List.filter_cons, inRange]
    rw [h1, h2]
    rfl

/-- Witness for the amended C4 at a concrete store. -/
theorem c4_amended_witness :
    (storeSeq2.fs.header = some (entriesHeader 0 [((2 : Int), [9])])
      ∧ storeSeq2.fs.body = some (entriesBody [((2 : Int), [9])])
      ∧ storeSeq2.cache.nextSenderMsgSeqNum = 4
      ∧ (∀ sq ∈ [((2 : Int), ([9] : Bytes))].map Prod.fst, sq < 4)
      ∧ ([((2 : Int), ([9] : Bytes))].map Prod.fst).Pairwise (· < ·))
    ∧ ((storeSeq2.SaveMessageAndIncrNextSenderMsgSeqNum 4 [7] none false).2.GetMessages
        4 4 false).1 = .ok [[7]] :=
  ⟨⟨rfl, rfl, rfl, by decide, by decide⟩,
    (c4_amended_save_and_incr storeSeq2 4 [7] [((2 : Int), [9])] rfl rfl rfl (by decide)
      (by decide)).2.2⟩

/-- C5: after a successful `Reset`, both next sequence numbers are 1, the
creation time is later than or equal to the pre-reset creation time
(assuming a monotone clock), and `GetMessages` over any range returns the
empty sequence. -/
theorem c5_reset (s : FileStore) (now : Int) (h : s.CreationTime ≤ now) :
    (s.Reset now).NextSenderMsgSeqNum = 1 ∧
    (s.Reset now).NextTargetMsgSeqNum = 1 ∧
    s.CreationTime ≤ (s.Reset now).CreationTime ∧
    ∀ b e, ((s.Reset now).GetMessages b e false).1 = .ok [] := by
  refine ⟨rfl, rfl, ?_, fun b e => rfl⟩
  have hc : (s.Reset now).CreationTime = now := rfl
  rw [hc]
  exact h

/-- Witness for C5 at a concrete store and clock reading. -/
theorem c5_witness :
    storeSeq9.CreationTime ≤ 5 ∧
    ((storeSeq9.Reset 5).NextSenderMsgSeqNum = 1 ∧
      (storeSeq9.Reset 5).NextTargetMsgSeqNum = 1 ∧
      storeSeq9.CreationTime ≤ (storeSeq9.Reset 5).CreationTime ∧
      ∀ b e, ((storeSeq9.Reset 5).GetMessages b e false).1 = .ok []) :=
  ⟨by decide, c5_reset storeSeq9 5 (by decide)⟩

/-- C6: creating a store over an empty or non-existent directory succeeds
with both counters 1, a newly established creation time, and all five
per-session files created on disk. -/
theorem c6_fresh_session (sync : Bool) (now : Int) :
    (newFileStore FS.empty sync now).NextSenderMsgSeqNum = 1 ∧
    (newFileStore FS.empty sync now).NextTargetMsgSeqNum = 1 ∧
    (newFileStore FS.empty sync now).CreationTime = now ∧
    (newFileStore FS.empty sync now).fs.body.isSome = true ∧
    (newFileStore FS.empty sync now).fs.header.isSome = true ∧
    (newFileStore FS.empty sync now).fs.session.isSome = true ∧
    (newFileStore FS.empty sync now).fs.senderSeqNums.isSome = true ∧
    (newFileStore FS.empty sync now).fs.targetSeqNums.isSome = true :=
  ⟨rfl, rfl, rfl, rfl, rfl, rfl, rfl, rfl⟩

/-- C7: `SetCreationTime` changes nothing observable: the store is
unchanged and `CreationTime` returns the same value as before. -/
theorem c7_setCreationTime_noop (s : FileStore) (t : Int) :
    s.SetCreationTime t = s ∧ (s.SetCreationTime t).CreationTime = s.CreationTime :=
  ⟨rfl, rfl⟩

/-- C8: the counter setters overwrite the counter file in place starting
at byte offset 0 with exactly the 19-character zero-padded decimal
representation of `n` (no newline), keeping any bytes beyond offset 19. -/
theorem c8_counter_file_format (s : FileStore) (n : Int) (h0 : 0 ≤ n) (h1 : n < 10 ^ 19) :
    (s.SetNextSenderMsgSeqNum n false).2.fs.senderSeqNums
      = some (format019 n ++ (s.fs.senderSeqNums.getD []).drop 19) ∧
    (s.SetNextTargetMsgSeqNum n false).2.fs.targetSeqNums
      = some (format019 n ++ (s.fs.targetSeqNums.getD []).drop 19) ∧
    (format019 n).length = 19 ∧
    (∀ c ∈ format019 n, c.isDigit = true) ∧
    goAtoi (format019 n) = some n := by
  have hlen := format019_length n h0 h1
  refine ⟨?_, ?_, hlen, format019_all_digit n h0, goAtoi_format019 n h0⟩
  · show some (writeAt0 (s.fs.senderSeqNums.getD []) (format019 n)) = _
    rw [writeAt0, hlen]
  · show some (writeAt0 (s.fs.targetSeqNums.getD []) (format019 n)) = _
    rw [writeAt0, hlen]

/-- Witness for C8 with `n = 42`. -/
theorem c8_witness :
    ((0 : Int) ≤ 42 ∧ (42 : Int) < 10 ^ 19) ∧
    ((storeBadHdr.SetNextSenderMsgSeqNum 42 false).2.fs.senderSeqNums
        = some (format019 42 ++ (storeBadHdr.fs.senderSeqNums.getD []).drop 19) ∧
      (format019 (42 : Int)).length = 19) := by
  refine ⟨⟨by decide, by decide⟩, ?_, ?_⟩
  · exact (c8_counter_file_format storeBadHdr 42 (by decide) (by decide)).1
  · exact (c8_counter_file_format storeBadHdr 42 (by decide) (by decide)).2.2.1

/-- C9: the counter setters write the file before updating the cache: when
the file write fails, the call returns an error, the store (in particular
its cache) is unchanged, and the value read back is the old one. -/
theorem c9_failed_write_keeps_cache (s : FileStore) (n : Int) :
    (s.SetNextSenderMsgSeqNum n true).1 = .error "unable to write to file" ∧
    (s.SetNextSenderMsgSeqNum n true).2 = s ∧
    (s.SetNextSenderMsgSeqNum n true).2.NextSenderMsgSeqNum = s.NextSenderMsgSeqNum ∧
    (s.SetNextTargetMsgSeqNum n true).1 = .error "unable to write to file" ∧
    (s.SetNextTargetMsgSeqNum n true).2 = s ∧
    (s.SetNextTargetMsgSeqNum n true).2.NextTargetMsgSeqNum = s.NextTargetMsgSeqNum :=
  ⟨rfl, rfl, rfl, rfl, rfl, rfl⟩

/-- C10: `SaveMessage`, `IterateMessages` and `GetMessages` never modify
the sequence-number state or the creation time, whether they succeed or
fail. -/
theorem c10_replay_frame (s : FileStore) (n : Int) (msg : Bytes) (fault : Option SaveFault)
    (b e : Int) (sf : Bool) {σ : Type} (cb : σ → Bytes → Except String σ) (init : σ) :
    (s.SaveMessage n msg fault).2.cache = s.cache ∧
    (s.SaveMessage n msg fault).2.NextSenderMsgSeqNum = s.NextSenderMsgSeqNum ∧
    (s.SaveMessage n msg fault).2.NextTargetMsgSeqNum = s.NextTargetMsgSeqNum ∧
    (s.SaveMessage n msg fault).2.CreationTime = s.CreationTime ∧
    (s.IterateMessages b e cb init sf).2 = s ∧
    (s.GetMessages b e sf).2 = s := by
  have hsave : (s.SaveMessage n msg fault).2.cache = s.cache := by
    rcases fault with _ | f
    · cases hs : s.fileSync <;> simp [FileStore.SaveMessage, hs]
    · cases f <;> cases hs : s.fileSync <;> simp [FileStore.SaveMessage, hs]
  have hiter : (s.IterateMessages b e cb init sf).2 = s := by
    cases sf <;> rfl
  have hget : (s.GetMessages b e sf).2 = s := by
    cases sf <;> rfl
  refine ⟨hsave, ?_, ?_, ?_, hiter, hget⟩
  · show (s.SaveMessage n msg fault).2.cache.nextSenderMsgSeqNum = s.cache.nextSenderMsgSeqNum
    rw [hsave]
  · show (s.SaveMessage n msg fault).2.cache.nextTargetMsgSeqNum = s.cache.nextTargetMsgSeqNum
    rw [hsave]
  · show (s.SaveMessage n msg fault).2.cache.creationTime = s.cache.creationTime
    rw [hsave]

end FileStoreModel
